import Mathlib

/-!
Shallow embedding of the Adversarial Autoencoder orchestrator in `aae.py`.

Batches are lists of rows of reals (float32 tensors of shape `[batch, d]`
modelled over `ℝ`).  The TensorFlow primitives used on lines 64-97 of
`aae.py` (`tf.square`, `tf.reduce_sum(_, axis=1)`, `tf.reduce_mean`,
`tf.sigmoid`, `tf.log`, elementwise `-`/`+`) are translated one by one, and
the losses, the `build` sequence, the three `minimize(loss, var_list)`
training ops and the training/inference entry points are composed from them
exactly as in the source.
-/

namespace AAE

abbrev Vec := List ℝ

abbrev Batch := List Vec

/-- Elementwise subtraction of two same-shape batches (`recon - X`). -/
def tfSub (a b : Batch) : Batch :=
  List.zipWith (fun r x => List.zipWith (fun u v => u - v) r x) a b

/-- `tf.square`, elementwise on a batch. -/
def tfSquare (a : Batch) : Batch :=
  a.map (fun r => r.map (fun u => u ^ 2))

/-- `tf.reduce_sum(_, axis=1)`: per-row sum over features. -/
def tfReduceSumAxis1 (a : Batch) : Vec :=
  a.map List.sum

/-- `tf.reduce_mean` of a rank-1 tensor: sum divided by length. -/
noncomputable def tfReduceMean (l : List ℝ) : ℝ :=
  l.sum / l.length

/-- `aae.py` line 68:
`recon_loss = tf.reduce_mean(tf.reduce_sum(tf.square(recon_imgs - X), axis=1))`. -/
noncomputable def recon_loss (recon X : Batch) : ℝ :=
  tfReduceMean (tfReduceSumAxis1 (tfSquare (tfSub recon X)))

/-- The spec's wording, stated independently of the source translation:
sum over features of squared error, indexed over feature positions. -/
def specSquaredErrorSum (r x : Vec) : ℝ :=
  ∑ j ∈ Finset.range x.length, (r.getD j 0 - x.getD j 0) ^ 2

/-- The spec's wording: `recon_loss = mean over batch of sum over features of
squared error(recon, X)`, indexed over batch positions. -/
noncomputable def spec_recon_loss (recon X : Batch) : ℝ :=
  (∑ i ∈ Finset.range X.length,
    specSquaredErrorSum (recon.getD i []) (X.getD i [])) / (X.length : ℝ)

/-- Sum of a `zipWith` over two equal-length lists, rewritten as a
`Finset.range` sum over positions. -/
lemma zipWith_sum_eq_range_sum (f : α → β → ℝ) (d₁ : α) (d₂ : β) :
    ∀ (a : List α) (b : List β), a.length = b.length →
      (List.zipWith f a b).sum =
        ∑ i ∈ Finset.range b.length, f (a.getD i d₁) (b.getD i d₂) := by
  intro a
  induction a with
  | nil =>
    intro b hb
    simp [(List.length_eq_zero.mp hb.symm)]
  | cons x xs ih =>
    intro b hb
    cases b with
    | nil => simp at hb
    | cons y ys =>
      simp only [List.zipWith_cons_cons, List.sum_cons, List.length_cons]
      rw [Finset.sum_range_succ']
      have hlen : xs.length = ys.length := by
        simpa using hb
      rw [ih ys hlen]
      simp [add_comm]

/-- Sum of a mapped list, rewritten as a `Finset.range` sum over positions. -/
lemma map_sum_eq_range_sum (f : α → ℝ) (d : α) (l : List α) :
    (l.map f).sum = ∑ i ∈ Finset.range l.length, f (l.getD i d) := by
  have h := zipWith_sum_eq_range_sum (fun u _ => f u) d d l l rfl
  simpa [List.zipWith_same] using h

/-- Pointwise length agreement of two batches of the same shape. -/
def SameShape (a b : Batch) : Prop :=
  List.Forall₂ (fun r x => r.length = x.length) a b

lemma SameShape.length_eq {a b : Batch} (h : SameShape a b) :
    a.length = b.length := List.Forall₂.length_eq h

lemma SameShape.getD_length {a b : Batch} (h : SameShape a b) {i : ℕ}
    (hi : i < b.length) : (a.getD i []).length = (b.getD i []).length := by
  induction h generalizing i with
  | nil => simp at hi
  | cons hr _ ih =>
    cases i with
    | zero => simpa using hr
    | succ j =>
      simp only [List.getD_cons_succ]
      exact ih (by simpa using hi)

/-- Per-row squared error: the `zipWith` form used by the source equals the
index-sum form used by the spec, for same-length rows. -/
lemma row_sq_err_eq (r x : Vec) (h : r.length = x.length) :
    (List.zipWith (fun u v => (u - v) ^ 2) r x).sum = specSquaredErrorSum r x := by
  unfold specSquaredErrorSum
  exact zipWith_sum_eq_range_sum (fun u v => (u - v) ^ 2) 0 0 r x h

/-- The source's squared-error pipeline on a pair of batches collapses to a
single `zipWith` of per-row sums of squares. -/
lemma reduceSum_square_sub (recon X : Batch) :
    tfReduceSumAxis1 (tfSquare (tfSub recon X)) =
      List.zipWith (fun r x => (List.zipWith (fun u v => (u - v) ^ 2) r x).sum)
        recon X := by
  unfold tfReduceSumAxis1 tfSquare tfSub
  rw [List.map_map, List.map_zipWith]
  congr 1
  funext r x
  simp [List.map_zipWith]

/-- C1 : the reconstruction loss built on line 68 equals the spec's
`mean over batch of sum over features of squared error(recon, X)`
for every pair of same-shape batches. -/
theorem recon_loss_eq_spec (recon X : Batch) (h : SameShape recon X) :
    recon_loss recon X = spec_recon_loss recon X := by
  unfold recon_loss spec_recon_loss tfReduceMean
  rw [reduceSum_square_sub]
  have hlen := h.length_eq
  rw [zipWith_sum_eq_range_sum
        (fun r x => (List.zipWith (fun u v => (u - v) ^ 2) r x).sum)
        ([] : Vec) ([] : Vec) recon X hlen]
  rw [List.length_zipWith, hlen, min_self]
  congr 1
  refine Finset.sum_congr rfl (fun i hi => ?_)
  exact row_sq_err_eq _ _ (h.getD_length (Finset.mem_range.mp hi))

/-- Witness for `recon_loss_eq_spec` at `recon = [[1]]`, `X = [[0]]`. -/
theorem recon_loss_eq_spec_witness :
    recon_loss [[(1 : ℝ)]] [[(0 : ℝ)]] = spec_recon_loss [[(1 : ℝ)]] [[(0 : ℝ)]] :=
  recon_loss_eq_spec [[(1 : ℝ)]] [[(0 : ℝ)]] (by simp [SameShape])

lemma row_err_nonneg (r x : Vec) :
    0 ≤ (List.zipWith (fun u v => (u - v) ^ 2) r x).sum := by
  induction r generalizing x with
  | nil => simp
  | cons u us ih =>
    cases x with
    | nil => simp
    | cons v vs =>
      simp only [List.zipWith_cons_cons, List.sum_cons]
      have h1 : (0 : ℝ) ≤ (u - v) ^ 2 := sq_nonneg _
      have h2 := ih vs
      linarith

lemma row_err_zero_iff (r x : Vec) (h : r.length = x.length) :
    (List.zipWith (fun u v => (u - v) ^ 2) r x).sum = 0 ↔ r = x := by
  induction r generalizing x with
  | nil =>
    have : x = [] := List.length_eq_zero.mp h.symm
    subst this
    simp
  | cons u us ih =>
    cases x with
    | nil => simp at h
    | cons v vs =>
      simp only [List.zipWith_cons_cons, List.sum_cons]
      have hlen : us.length = vs.length := by simpa using h
      have h1 : (0 : ℝ) ≤ (u - v) ^ 2 := sq_nonneg _
      have h2 := row_err_nonneg us vs
      constructor
      · intro hz
        have hu : (u - v) ^ 2 = 0 := by linarith
        have hv : (List.zipWith (fun u v => (u - v) ^ 2) us vs).sum = 0 := by
          linarith
        have : u = v := by
          have := pow_eq_zero_iff (n := 2) (by norm_num) |>.mp hu
          linarith [sub_eq_zero.mp this]
        simp [this, (ih vs hlen).mp hv]
      · intro hz
        obtain ⟨h1', h2'⟩ := List.cons_eq_cons.mp hz
        subst h1'
        simp [(ih vs hlen).mpr h2']

lemma zip_row_err_nonneg (a b : Batch) :
    0 ≤ (List.zipWith
      (fun r x => (List.zipWith (fun u v => (u - v) ^ 2) r x).sum) a b).sum := by
  apply List.sum_nonneg
  intro y hy
  induction a generalizing b with
  | nil => simp at hy
  | cons r rs ih =>
    cases b with
    | nil => simp at hy
    | cons x xs =>
      simp only [List.zipWith_cons_cons, List.mem_cons] at hy
      rcases hy with h | h
      · subst h; exact row_err_nonneg r x
      · exact ih xs h

lemma zip_row_err_zero_iff {a b : Batch} (h : SameShape a b) :
    (List.zipWith
      (fun r x => (List.zipWith (fun u v => (u - v) ^ 2) r x).sum) a b).sum = 0
      ↔ a = b := by
  induction h with
  | nil => simp
  | @cons r x rs xs hr hs ih =>
    simp only [List.zipWith_cons_cons, List.sum_cons]
    have h1 := row_err_nonneg r x
    have h2 := zip_row_err_nonneg rs xs
    constructor
    · intro hz
      have hv : (List.zipWith (fun u v => (u - v) ^ 2) r x).sum = 0 := by linarith
      have hw : (List.zipWith
          (fun r x => (List.zipWith (fun u v => (u - v) ^ 2) r x).sum)
          rs xs).sum = 0 := by linarith
      simp [(row_err_zero_iff r x hr).mp hv, ih.mp hw]
    · intro hz
      obtain ⟨h1', h2'⟩ := List.cons_eq_cons.mp hz
      subst h1'
      rw [(row_err_zero_iff r r rfl).mpr rfl, ih.mpr h2']
      simp

/-- C5 : for every pair of same-shape batches, the reconstruction loss is
non-negative, and it is zero exactly when the reconstruction equals the
input element-wise. -/
theorem recon_loss_nonneg_and_zero_iff (recon X : Batch) (h : SameShape recon X) :
    0 ≤ recon_loss recon X ∧ (recon_loss recon X = 0 ↔ recon = X) := by
  have hform : recon_loss recon X =
      (List.zipWith
        (fun r x => (List.zipWith (fun u v => (u - v) ^ 2) r x).sum)
        recon X).sum / (X.length : ℝ) := by
    unfold recon_loss tfReduceMean
    rw [reduceSum_square_sub, List.length_zipWith, h.length_eq, min_self]
  constructor
  · rw [hform]
    exact div_nonneg (zip_row_err_nonneg recon X) (Nat.cast_nonneg _)
  · rw [hform]
    cases X with
    | nil =>
      have : recon = [] := List.length_eq_zero.mp h.length_eq
      subst this
      simp
    | cons x xs =>
      have hn : ((x :: xs).length : ℝ) ≠ 0 := by
        simp [Nat.cast_add]
        positivity
      rw [div_eq_zero_iff]
      constructor
      · intro hc
        rcases hc with hc | hc
        · exact (zip_row_err_zero_iff h).mp hc
        · exact absurd hc hn
      · intro hc
        exact Or.inl ((zip_row_err_zero_iff h).mpr hc)

/-- Witness for `recon_loss_nonneg_and_zero_iff` at `recon = [[2]]`, `X = [[0]]`. -/
theorem recon_loss_nonneg_and_zero_iff_witness :
    0 ≤ recon_loss [[(2 : ℝ)]] [[(0 : ℝ)]] ∧
      (recon_loss [[(2 : ℝ)]] [[(0 : ℝ)]] = 0 ↔ [[(2 : ℝ)]] = [[(0 : ℝ)]]) :=
  recon_loss_nonneg_and_zero_iff [[(2 : ℝ)]] [[(0 : ℝ)]] (by simp [SameShape])

/-- Modelled from the spec: `TINY` is imported from `utils` (not in src); the
spec describes it only as "a small additive epsilon (`ε`, a fixed tiny
constant) to avoid `log(0)`".  It is modelled as the representative tiny
positive constant `1e-8`; the theorems below use only that it is positive
and at most `1`. -/
noncomputable def TINY : ℝ := 1e-8

lemma TINY_pos : 0 < TINY := by unfold TINY; norm_num

lemma TINY_le_one : TINY ≤ 1 := by unfold TINY; norm_num

/-- `tf.sigmoid`: the logistic function `1 / (1 + exp(-x))`. -/
noncomputable def sigmoid (x : ℝ) : ℝ := 1 / (1 + Real.exp (-x))

/-- `aae.py` line 80:
`L_D = -tf.reduce_mean(tf.log(tf.sigmoid(true_logits) + TINY)
                       + tf.log(1. - tf.sigmoid(fake_logits) + TINY))`. -/
noncomputable def L_D (true_logits fake_logits : List ℝ) : ℝ :=
  -tfReduceMean
    (List.zipWith (fun a b => a + b)
      (true_logits.map (fun t => Real.log (sigmoid t + TINY)))
      (fake_logits.map (fun f => Real.log (1 - sigmoid f + TINY))))

/-- The spec's wording:
`L_D = -mean(log(sigmoid(true_logits) + ε) + log(1 − sigmoid(fake_logits) + ε))`,
indexed over batch positions. -/
noncomputable def spec_L_D (true_logits fake_logits : List ℝ) : ℝ :=
  -((∑ i ∈ Finset.range true_logits.length,
      (Real.log (sigmoid (true_logits.getD i 0) + TINY) +
        Real.log (1 - sigmoid (fake_logits.getD i 0) + TINY))) /
    (true_logits.length : ℝ))

/-- C2 : the discriminator loss built on line 80 equals the spec's
`-mean(log(sigmoid(true_logits) + ε) + log(1 − sigmoid(fake_logits) + ε))`
for every pair of equal-length logit batches. -/
theorem L_D_eq_spec (true_logits fake_logits : List ℝ)
    (h : true_logits.length = fake_logits.length) :
    L_D true_logits fake_logits = spec_L_D true_logits fake_logits := by
  unfold L_D spec_L_D tfReduceMean
  rw [List.zipWith_map
       (fun a b => a + b)
       (fun t => Real.log (sigmoid t + TINY))
       (fun f => Real.log (1 - sigmoid f + TINY))
       true_logits fake_logits]
  rw [zipWith_sum_eq_range_sum
        (fun t f => Real.log (sigmoid t + TINY) + Real.log (1 - sigmoid f + TINY))
        0 0 true_logits fake_logits h]
  rw [← h, List.length_zipWith, ← h, min_self]

/-- Witness for `L_D_eq_spec` at `true_logits = [0]`, `fake_logits = [0]`. -/
theorem L_D_eq_spec_witness : L_D [(0 : ℝ)] [(0 : ℝ)] = spec_L_D [(0 : ℝ)] [(0 : ℝ)] :=
  L_D_eq_spec [(0 : ℝ)] [(0 : ℝ)] rfl

/-- `aae.py` line 84 (`G_type == 1`):
`L_G = tf.reduce_mean(1. - tf.log(tf.sigmoid(fake_logits) + TINY))`. -/
noncomputable def L_G1 (fake_logits : List ℝ) : ℝ :=
  tfReduceMean (fake_logits.map (fun f => 1 - Real.log (sigmoid f + TINY)))

/-- `aae.py` line 86 (`G_type == 2`):
`L_G = -tf.reduce_mean(tf.log(tf.sigmoid(fake_logits) + TINY))`. -/
noncomputable def L_G2 (fake_logits : List ℝ) : ℝ :=
  -tfReduceMean (fake_logits.map (fun f => Real.log (sigmoid f + TINY)))

/-- The spec's wording for `G_type=1`: `mean(1 − log(sigmoid(fake_logits)+ε))`,
indexed over batch positions. -/
noncomputable def spec_L_G1 (fake_logits : List ℝ) : ℝ :=
  (∑ i ∈ Finset.range fake_logits.length,
    (1 - Real.log (sigmoid (fake_logits.getD i 0) + TINY))) /
    (fake_logits.length : ℝ)

/-- The spec's wording for `G_type=2`: `-mean(log(sigmoid(fake_logits) + ε))`,
indexed over batch positions. -/
noncomputable def spec_L_G2 (fake_logits : List ℝ) : ℝ :=
  -((∑ i ∈ Finset.range fake_logits.length,
      Real.log (sigmoid (fake_logits.getD i 0) + TINY)) /
    (fake_logits.length : ℝ))

/-- The stage of `build` at which a failure can surface when `G_type` is
outside `{1, 2}`: either the `Generator_Loss` summary on line 88 of
`_build_GAN_network` (reading the never-assigned `self.L_G`), or the
generator train-op construction on line 97 of `_build_train_ops`. -/
inductive BuildStage
  | ganSummary
  | genTrainOp
deriving DecidableEq

/-- The loss graph assembled by `build`. -/
structure BuiltGraph where
  lossD : List ℝ → List ℝ → ℝ
  lossG : List ℝ → ℝ

/-- `_build_GAN_network` (lines 72-88): always builds `L_D`; assigns `L_G`
only in the `G_type == 1` / `elif G_type == 2` branches; line 88 then
unconditionally attaches the `Generator_Loss` summary to `self.L_G`, which
fails (AttributeError) when neither branch assigned it. -/
noncomputable def build_GAN_network (G_type : ℕ) :
    Except BuildStage BuiltGraph :=
  let lg : Option (List ℝ → ℝ) :=
    if G_type = 1 then some L_G1
    else if G_type = 2 then some L_G2
    else none
  match lg with
  | some g => Except.ok ⟨L_D, g⟩
  | none => Except.error BuildStage.ganSummary

/-- `build` (lines 53-62): `_build_VAE_network`, then `_build_GAN_network`,
then `_build_train_ops` (which constructs the generator train op from
`self.L_G` on line 97, reached only if the GAN network built). -/
noncomputable def build (G_type : ℕ) : Except BuildStage BuiltGraph :=
  match build_GAN_network G_type with
  | Except.ok g => Except.ok g
  | Except.error e => Except.error e

/-- C3 : the generator loss selected by `build` depends only on `G_type`:
for `G_type=1` it is `mean(1 − log(sigmoid(fake_logits)+ε))` and for
`G_type=2` it is `-mean(log(sigmoid(fake_logits)+ε))`, for every
fake-logits batch. -/
theorem build_L_G_eq_spec (fake_logits : List ℝ) :
    (build 1).map (fun g => g.lossG fake_logits) =
        Except.ok (spec_L_G1 fake_logits) ∧
      (build 2).map (fun g => g.lossG fake_logits) =
        Except.ok (spec_L_G2 fake_logits) := by
  constructor
  · show Except.ok (L_G1 fake_logits) = Except.ok (spec_L_G1 fake_logits)
    unfold L_G1 spec_L_G1 tfReduceMean
    rw [map_sum_eq_range_sum (fun f => 1 - Real.log (sigmoid f + TINY)) 0
          fake_logits]
    rw [List.length_map]
  · show Except.ok (L_G2 fake_logits) = Except.ok (spec_L_G2 fake_logits)
    unfold L_G2 spec_L_G2 tfReduceMean
    rw [map_sum_eq_range_sum (fun f => Real.log (sigmoid f + TINY)) 0
          fake_logits]
    rw [List.length_map]

lemma sigmoid_pos (x : ℝ) : 0 < sigmoid x := by
  unfold sigmoid
  positivity

lemma sigmoid_lt_one (x : ℝ) : sigmoid x < 1 := by
  unfold sigmoid
  rw [div_lt_one (by positivity)]
  linarith [Real.exp_pos (-x)]

lemma log_arg_true_bounds (x : ℝ) :
    TINY ≤ sigmoid x + TINY ∧ sigmoid x + TINY ≤ 1 + TINY :=
  ⟨by linarith [sigmoid_pos x], by linarith [sigmoid_lt_one x]⟩

lemma log_arg_fake_bounds (x : ℝ) :
    TINY ≤ 1 - sigmoid x + TINY ∧ 1 - sigmoid x + TINY ≤ 1 + TINY :=
  ⟨by linarith [sigmoid_lt_one x], by linarith [sigmoid_pos x]⟩

lemma TINY_lt_one : TINY < 1 := by unfold TINY; norm_num

lemma log_TINY_nonpos : Real.log TINY ≤ 0 :=
  le_of_lt (Real.log_neg TINY_pos TINY_lt_one)

/-- Any value in the band `[TINY, 1 + TINY]` has its logarithm bounded in
absolute value by `1 - log TINY`. -/
lemma abs_log_band_le (y : ℝ) (hlo : TINY ≤ y) (hhi : y ≤ 1 + TINY) :
    |Real.log y| ≤ 1 - Real.log TINY := by
  have hylog_lo : Real.log TINY ≤ Real.log y := Real.log_le_log TINY_pos hlo
  have hylog_hi : Real.log y ≤ Real.log (1 + TINY) :=
    Real.log_le_log (lt_of_lt_of_le TINY_pos hlo) hhi
  have hsmall : Real.log (1 + TINY) ≤ TINY := by
    have := Real.log_le_sub_one_of_pos (x := 1 + TINY) (by linarith [TINY_pos])
    linarith
  have h0 := log_TINY_nonpos
  have h1 := TINY_le_one
  rw [abs_le]
  constructor <;> linarith

/-- Every member of a `zipWith` comes from a pair of members. -/
lemma exists_of_mem_zipWith {f : α → β → γ} {l₁ : List α} {l₂ : List β} {y : γ}
    (hy : y ∈ List.zipWith f l₁ l₂) :
    ∃ a b, a ∈ l₁ ∧ b ∈ l₂ ∧ y = f a b := by
  induction l₁ generalizing l₂ with
  | nil => simp at hy
  | cons a as ih =>
    cases l₂ with
    | nil => simp at hy
    | cons b bs =>
      simp only [List.zipWith_cons_cons, List.mem_cons] at hy
      rcases hy with h | h
      · exact ⟨a, b, List.mem_cons_self a as, List.mem_cons_self b bs, h⟩
      · obtain ⟨a', b', ha, hb, he⟩ := ih h
        exact ⟨a', b', List.mem_cons_of_mem _ ha, List.mem_cons_of_mem _ hb, he⟩

lemma abs_list_sum_le (l : List ℝ) (B : ℝ) (h : ∀ x ∈ l, |x| ≤ B) :
    |l.sum| ≤ l.length * B := by
  induction l with
  | nil => simp
  | cons x xs ih =>
    simp only [List.sum_cons, List.length_cons]
    have h1 : |x| ≤ B := h x (List.mem_cons_self x xs)
    have h2 : |xs.sum| ≤ xs.length * B :=
      ih (fun y hy => h y (List.mem_cons_of_mem _ hy))
    calc |x + xs.sum| ≤ |x| + |xs.sum| := abs_add _ _
      _ ≤ B + xs.length * B := by linarith
      _ = (xs.length + 1) * B := by ring
      _ = ((xs.length + 1 : ℕ) : ℝ) * B := by push_cast; ring

/-- A mean of values all bounded by `B` in absolute value is bounded by `B`,
for a non-empty list. -/
lemma abs_tfReduceMean_le (l : List ℝ) (B : ℝ) (hne : l ≠ [])
    (h : ∀ x ∈ l, |x| ≤ B) : |tfReduceMean l| ≤ B := by
  unfold tfReduceMean
  have hlen : 0 < (l.length : ℝ) := by
    have := List.length_pos.mpr hne
    exact_mod_cast this
  rw [abs_div, abs_of_pos hlen, div_le_iff₀ hlen]
  calc |l.sum| ≤ l.length * B := abs_list_sum_le l B h
    _ = B * l.length := by ring

/-- C6 : because `TINY` is added inside each logarithm, every log argument
is strictly positive for every logit, and the losses `L_D`, `L_G1`, `L_G2`
are bounded in absolute value by the finite constant `2 - 2 log TINY` on
every non-empty pair of equal-length logit batches (no NaN/Inf). -/
theorem losses_finite_with_eps_guard (true_logits fake_logits : List ℝ)
    (hne : true_logits ≠ []) (hlen : true_logits.length = fake_logits.length) :
    (∀ x : ℝ, 0 < sigmoid x + TINY ∧ 0 < 1 - sigmoid x + TINY) ∧
      |L_D true_logits fake_logits| ≤ 2 - 2 * Real.log TINY ∧
      |L_G1 fake_logits| ≤ 2 - 2 * Real.log TINY ∧
      |L_G2 fake_logits| ≤ 2 - 2 * Real.log TINY := by
  have hfne : fake_logits ≠ [] := by
    intro hc
    rw [hc] at hlen
    exact hne (List.length_eq_zero.mp (by simpa using hlen))
  have habs_true : ∀ t : ℝ, |Real.log (sigmoid t + TINY)| ≤ 1 - Real.log TINY :=
    fun t => abs_log_band_le _ (log_arg_true_bounds t).1 (log_arg_true_bounds t).2
  have habs_fake : ∀ f : ℝ, |Real.log (1 - sigmoid f + TINY)| ≤ 1 - Real.log TINY :=
    fun f => abs_log_band_le _ (log_arg_fake_bounds f).1 (log_arg_fake_bounds f).2
  have hT0 := log_TINY_nonpos
  refine ⟨fun x => ⟨by linarith [sigmoid_pos x, TINY_pos],
                    by linarith [sigmoid_lt_one x, TINY_pos]⟩, ?_, ?_, ?_⟩
  · unfold L_D
    rw [abs_neg]
    have hzne : List.zipWith (fun a b => a + b)
        (true_logits.map (fun t => Real.log (sigmoid t + TINY)))
        (fake_logits.map (fun f => Real.log (1 - sigmoid f + TINY))) ≠ [] := by
      intro hc
      have := congrArg List.length hc
      rw [List.length_zipWith, List.length_map, List.length_map, ← hlen,
        min_self] at this
      exact hne (List.length_eq_zero.mp (by simpa using this))
    apply abs_tfReduceMean_le _ _ hzne
    intro y hy
    obtain ⟨a, b, ha, hb, he⟩ := exists_of_mem_zipWith hy
    obtain ⟨t, _, ht⟩ := List.mem_map.mp ha
    obtain ⟨f, _, hf⟩ := List.mem_map.mp hb
    subst he
    calc |a + b| ≤ |a| + |b| := abs_add _ _
      _ ≤ (1 - Real.log TINY) + (1 - Real.log TINY) := by
          rw [← ht, ← hf]
          exact add_le_add (habs_true t) (habs_fake f)
      _ = 2 - 2 * Real.log TINY := by ring
  · unfold L_G1
    apply abs_tfReduceMean_le _ _ (by simpa using hfne)
    intro y hy
    obtain ⟨f, _, hf⟩ := List.mem_map.mp hy
    calc |y| = |1 - Real.log (sigmoid f + TINY)| := by rw [← hf]
      _ ≤ |(1 : ℝ)| + |Real.log (sigmoid f + TINY)| := abs_sub _ _
      _ ≤ 1 + (1 - Real.log TINY) := by
          have := habs_true f
          simp only [abs_one]
          linarith
      _ ≤ 2 - 2 * Real.log TINY := by linarith
  · unfold L_G2
    rw [abs_neg]
    apply abs_tfReduceMean_le _ _ (by simpa using hfne)
    intro y hy
    obtain ⟨f, _, hf⟩ := List.mem_map.mp hy
    calc |y| = |Real.log (sigmoid f + TINY)| := by rw [← hf]
      _ ≤ 1 - Real.log TINY := habs_true f
      _ ≤ 2 - 2 * Real.log TINY := by linarith

/-- Witness for `losses_finite_with_eps_guard` at the one-element batches
`[0]`, `[0]`. -/
theorem losses_finite_with_eps_guard_witness :
    |L_D [(0 : ℝ)] [(0 : ℝ)]| ≤ 2 - 2 * Real.log TINY :=
  (losses_finite_with_eps_guard [(0 : ℝ)] [(0 : ℝ)] (by simp) rfl).2.1

/-- Counterexample to C10 as stated: at `G_type = 0` the failure surfaces at
the `Generator_Loss` summary inside `_build_GAN_network` (line 88), not at
the generator train-op construction in `_build_train_ops`. -/
theorem build_invalid_G_type_fails_at_summary_counterexample :
    build 0 = Except.error BuildStage.ganSummary ∧
      BuildStage.ganSummary ≠ BuildStage.genTrainOp :=
  ⟨rfl, by decide⟩

/-- C10 (amended) : if `build` is called with `G_type` outside `{1, 2}`, no
generator loss is ever assigned and `build` fails — at the generator-loss
summary in `_build_GAN_network`, before the train-op construction is
reached; it does not silently succeed with a default loss. -/
theorem build_invalid_G_type_fails (G_type : ℕ)
    (h1 : G_type ≠ 1) (h2 : G_type ≠ 2) :
    build G_type = Except.error BuildStage.ganSummary := by
  unfold build build_GAN_network
  simp [h1, h2]

/-- Witness for `build_invalid_G_type_fails` at `G_type = 3`. -/
theorem build_invalid_G_type_fails_witness :
    build 3 = Except.error BuildStage.ganSummary :=
  build_invalid_G_type_fails 3 (by decide) (by decide)

/-- The owner network of a trainable variable. -/
inductive Owner
  | encoder
  | decoder
  | discriminator
deriving DecidableEq

/-- A trainable variable, identified by its owning network and an index
within that network's parameter list. -/
structure TFVariable where
  owner : Owner
  idx : ℕ
deriving DecidableEq

/-- Modelled from the spec: each network's `get_variables` (bodies live in
`models.py`, which is not in src) is "a parameter-accessor returning its
owned parameter list" — the variables whose owner is that network. -/
def get_variables (o : Owner) (n : ℕ) : List TFVariable :=
  (List.range n).map (fun i => ⟨o, i⟩)

/-- The value assignment of every trainable variable in the graph. -/
abbrev VarAssignment := TFVariable → ℝ

/-- `Optimizer.minimize(loss, var_list)`: one optimization step applies the
optimizer's per-variable update to exactly the variables in `var_list` and
leaves every other variable unchanged. -/
def minimize (var_list : List TFVariable) (upd : TFVariable → ℝ → ℝ)
    (s : VarAssignment) : VarAssignment :=
  fun v => if v ∈ var_list then upd v (s v) else s v

/-- `aae.py` line 95: the reconstruction step minimizes `recon_loss` over
`encoder_train_vars + decoder_train_vars`. -/
def vae_train_op (nE nD : ℕ) (upd : TFVariable → ℝ → ℝ)
    (s : VarAssignment) : VarAssignment :=
  minimize (get_variables Owner.encoder nE ++ get_variables Owner.decoder nD)
    upd s

/-- `aae.py` line 96: the discriminator step minimizes `L_D` over
`disc_train_vars` only. -/
def disc_train_op (nDisc : ℕ) (upd : TFVariable → ℝ → ℝ)
    (s : VarAssignment) : VarAssignment :=
  minimize (get_variables Owner.discriminator nDisc) upd s

/-- `aae.py` line 97: the generator step minimizes `L_G` over
`encoder_train_vars` only. -/
def gen_train_op (nE : ℕ) (upd : TFVariable → ℝ → ℝ)
    (s : VarAssignment) : VarAssignment :=
  minimize (get_variables Owner.encoder nE) upd s

lemma owner_of_mem_get_variables {v : TFVariable} {o : Owner} {n : ℕ}
    (h : v ∈ get_variables o n) : v.owner = o := by
  unfold get_variables at h
  obtain ⟨i, _, hv⟩ := List.mem_map.mp h
  rw [← hv]

/-- C4 : each optimization step mutates only its designated parameter set —
the generator step leaves non-encoder variables unchanged, the
discriminator step leaves non-discriminator variables unchanged, and the
reconstruction step leaves variables that are neither encoder nor decoder
variables unchanged. -/
theorem train_ops_frame (nE nD nDisc : ℕ)
    (updG updDisc updR : TFVariable → ℝ → ℝ) (s : VarAssignment)
    (v : TFVariable) :
    (v.owner ≠ Owner.encoder → gen_train_op nE updG s v = s v) ∧
      (v.owner ≠ Owner.discriminator → disc_train_op nDisc updDisc s v = s v) ∧
      (v.owner ≠ Owner.encoder → v.owner ≠ Owner.decoder →
        vae_train_op nE nD updR s v = s v) := by
  refine ⟨fun hv => ?_, fun hv => ?_, fun hv1 hv2 => ?_⟩
  · unfold gen_train_op minimize
    rw [if_neg (fun hm => hv (owner_of_mem_get_variables hm))]
  · unfold disc_train_op minimize
    rw [if_neg (fun hm => hv (owner_of_mem_get_variables hm))]
  · unfold vae_train_op minimize
    rw [if_neg]
    intro hm
    rcases List.mem_append.mp hm with hm | hm
    · exact hv1 (owner_of_mem_get_variables hm)
    · exact hv2 (owner_of_mem_get_variables hm)

/-- Witness for `train_ops_frame`: with one variable per network, a unit
increment update and the all-zero assignment, a decoder variable survives
the generator step, an encoder variable survives the discriminator step,
and a discriminator variable survives the reconstruction step. -/
theorem train_ops_frame_witness :
    gen_train_op 1 (fun _ x => x + 1) (fun _ => (0 : ℝ))
        ⟨Owner.decoder, 0⟩ = 0 ∧
      disc_train_op 1 (fun _ x => x + 1) (fun _ => (0 : ℝ))
        ⟨Owner.encoder, 0⟩ = 0 ∧
      vae_train_op 1 1 (fun _ x => x + 1) (fun _ => (0 : ℝ))
        ⟨Owner.discriminator, 0⟩ = 0 :=
  ⟨(train_ops_frame 1 1 1 (fun _ x => x + 1) (fun _ x => x + 1)
      (fun _ x => x + 1) (fun _ => (0 : ℝ))
      (⟨Owner.decoder, 0⟩ : TFVariable)).1 (by decide),
    (train_ops_frame 1 1 1 (fun _ x => x + 1) (fun _ x => x + 1)
      (fun _ x => x + 1) (fun _ => (0 : ℝ))
      (⟨Owner.encoder, 0⟩ : TFVariable)).2.1 (by decide),
    (train_ops_frame 1 1 1 (fun _ x => x + 1) (fun _ x => x + 1)
      (fun _ x => x + 1) (fun _ => (0 : ℝ))
      (⟨Owner.discriminator, 0⟩ : TFVariable)).2.2
      (by decide) (by decide)⟩

/-- Modelled from the spec: the forward passes of the three sub-networks
(bodies in `models.py`, not in src).  Each is "a callable
`(input[, labels], is_training) -> tensor`", a deterministic function of its
own parameter vector and its inputs. -/
structure Networks where
  encoderFwd : List ℝ → Vec → Vec
  decoderFwd : List ℝ → Vec → Vec
  discFwd : List ℝ → Vec → Vec → ℝ

/-- Fixed configuration from `__init__` (lines 37-43). -/
structure AAEConfig where
  batch_size : ℕ
  z_dim : ℕ

/-- The mutable state across calls: one parameter vector per network, the
position of the first unconsumed value in the abstract stream of
standard-normal draws, and the externally-managed step counter
(`self.step`, initialised on line 43 and never written inside `aae.py`). -/
structure AAEState where
  encP : List ℝ
  decP : List ℝ
  discP : List ℝ
  normalStream : ℕ → ℝ
  drawn : ℕ
  step : ℕ

/-- Modelled from the spec: `_sample_StandarddNormal` (lines 99-100) wraps
`np.random.standard_normal(size=shape)` — a fresh `rows × cols` matrix of
standard-normal draws, read here from the abstract stream starting at the
first unconsumed position. -/
def sample_StandarddNormal (stream : ℕ → ℝ) (start rows cols : ℕ) : Batch :=
  (List.range rows).map
    (fun i => (List.range cols).map (fun j => stream (start + i * cols + j)))

/-- `fake_logits` (line 76): the discriminator applied to the encoder's
output `q_z` for each row of `X`, conditioned on `y`. -/
def fake_logits_of (nets : Networks) (st : AAEState) (X y : Batch) : List ℝ :=
  List.zipWith (fun x yy => nets.discFwd st.discP (nets.encoderFwd st.encP x) yy)
    X y

/-- `true_logits` (line 78): the discriminator applied to the prior samples
fed through the `z_inputs` placeholder, conditioned on `y`. -/
def true_logits_of (nets : Networks) (st : AAEState) (pz y : Batch) : List ℝ :=
  List.zipWith (fun z yy => nets.discFwd st.discP z yy) pz y

/-- The outcome of one training entry point: the returned scalar loss, the
metric records appended to the writer (each a summary value tagged with a
step), and the state after the run. -/
structure TrainResult where
  loss : ℝ
  log : List (ℝ × ℕ)
  state : AAEState

/-- `train_VAE` (lines 105-112): one `sess.run` of `vae_train_op` and
`recon_loss` on feed `{X: X}`; writes the summary tagged with `self.step`
when a writer is supplied; returns the reconstruction loss. -/
noncomputable def train_VAE (nets : Networks) (updE updD : List ℝ → List ℝ)
    (st : AAEState) (X : Batch) (writer : Bool) : TrainResult :=
  let lossVal := recon_loss
    (X.map (fun x => nets.decoderFwd st.decP (nets.encoderFwd st.encP x))) X
  { loss := lossVal
    log := if writer then [(lossVal, st.step)] else []
    state := { st with encP := updE st.encP, decP := updD st.decP } }

/-- `train_GENERATOR` (lines 114-125): one `sess.run` of `gen_train_op` and
`L_G` on feed `{X: X, y_labels: y}`; writes the summary tagged with
`self.step` when a writer is supplied; returns the generator loss. -/
noncomputable def train_GENERATOR (nets : Networks) (lossG : List ℝ → ℝ)
    (updE : List ℝ → List ℝ) (st : AAEState) (X y : Batch)
    (writer : Bool) : TrainResult :=
  let lossVal := lossG (fake_logits_of nets st X y)
  { loss := lossVal
    log := if writer then [(lossVal, st.step)] else []
    state := { st with encP := updE st.encP } }

/-- `train_DISCRIMINATOR` (lines 127-141): samples
`p_z = _sample_StandarddNormal(shape=(batch_size, z_dim))`, feeds it through
the `z_inputs` placeholder together with `X` and `y`, runs `disc_train_op`
and `L_D` once; writes the summary tagged with `self.step` when a writer is
supplied; returns the discriminator loss. -/
noncomputable def train_DISCRIMINATOR (cfg : AAEConfig) (nets : Networks)
    (updDisc : List ℝ → List ℝ) (st : AAEState) (X y : Batch)
    (writer : Bool) : TrainResult :=
  let p_z := sample_StandarddNormal st.normalStream st.drawn
    cfg.batch_size cfg.z_dim
  let lossVal := L_D (true_logits_of nets st p_z y) (fake_logits_of nets st X y)
  { loss := lossVal
    log := if writer then [(lossVal, st.step)] else []
    state := { st with discP := updDisc st.discP
                       drawn := st.drawn + cfg.batch_size * cfg.z_dim } }

/-- `get_latent_space` (lines 143-147): one `sess.run` of the inference-mode
encoder on feed `{X: X}`; touches no parameter, no random draw, no step. -/
def get_latent_space (nets : Networks) (st : AAEState) (X : Batch) :
    Batch × AAEState :=
  (X.map (fun x => nets.encoderFwd st.encP x), st)

/-- The freshly sampled prior batch has `batch_size` rows of `z_dim`
entries each. -/
lemma sample_StandarddNormal_shape (stream : ℕ → ℝ) (start rows cols : ℕ) :
    (sample_StandarddNormal stream start rows cols).length = rows ∧
      (sample_StandarddNormal stream start rows cols).map List.length =
        List.replicate rows cols := by
  constructor
  · simp [sample_StandarddNormal]
  · simp [sample_StandarddNormal, List.map_map, Function.comp_def,
      List.map_const']

/-- C7 : each `train_DISCRIMINATOR` call draws the fresh prior batch of
shape `[batch_size, z_dim]` from the normal stream at the first unconsumed
position, feeds it as `p_z` through `z_inputs` into `L_D` against the fake
logits of `X`, runs the discriminator step once (only `discP` and the
stream position change), and returns the scalar `L_D`. -/
theorem train_DISCRIMINATOR_spec (cfg : AAEConfig) (nets : Networks)
    (updDisc : List ℝ → List ℝ) (st : AAEState) (X y : Batch) (writer : Bool) :
    (sample_StandarddNormal st.normalStream st.drawn
        cfg.batch_size cfg.z_dim).length = cfg.batch_size ∧
      (sample_StandarddNormal st.normalStream st.drawn
          cfg.batch_size cfg.z_dim).map List.length =
        List.replicate cfg.batch_size cfg.z_dim ∧
      (train_DISCRIMINATOR cfg nets updDisc st X y writer).loss =
        L_D (true_logits_of nets st
              (sample_StandarddNormal st.normalStream st.drawn
                cfg.batch_size cfg.z_dim) y)
          (fake_logits_of nets st X y) ∧
      (train_DISCRIMINATOR cfg nets updDisc st X y writer).state.discP =
        updDisc st.discP ∧
      (train_DISCRIMINATOR cfg nets updDisc st X y writer).state.drawn =
        st.drawn + cfg.batch_size * cfg.z_dim ∧
      (train_DISCRIMINATOR cfg nets updDisc st X y writer).state.encP =
        st.encP ∧
      (train_DISCRIMINATOR cfg nets updDisc st X y writer).state.decP =
        st.decP :=
  ⟨(sample_StandarddNormal_shape _ _ _ _).1,
    (sample_StandarddNormal_shape _ _ _ _).2, rfl, rfl, rfl, rfl, rfl⟩

/-- C8 : two `get_latent_space` calls on the same `X` with no training step
in between return identical outputs, and the call leaves the state
untouched: the inference path is a deterministic function of `X` and the
parameters. -/
theorem get_latent_space_deterministic (nets : Networks) (st : AAEState)
    (X : Batch) :
    (get_latent_space nets (get_latent_space nets st X).2 X).1 =
        (get_latent_space nets st X).1 ∧
      (get_latent_space nets st X).2 = st :=
  ⟨rfl, rfl⟩

/-- C9 : every training entry point tags its metric record with the current
step counter and uses the counter for nothing else: the record emitted when
a writer is present is exactly `(summary value, current step)`, no entry
point modifies the counter, and the returned loss is unchanged when the
counter is replaced by any other value. -/
theorem step_counter_only_timestamps (cfg : AAEConfig) (nets : Networks)
    (updE updD updEg updDisc : List ℝ → List ℝ) (lossG : List ℝ → ℝ)
    (st : AAEState) (X y : Batch) (writer : Bool) (k : ℕ) :
    ((train_VAE nets updE updD st X writer).log =
        if writer then [((train_VAE nets updE updD st X writer).loss, st.step)]
        else []) ∧
      ((train_GENERATOR nets lossG updEg st X y writer).log =
        if writer then
          [((train_GENERATOR nets lossG updEg st X y writer).loss, st.step)]
        else []) ∧
      ((train_DISCRIMINATOR cfg nets updDisc st X y writer).log =
        if writer then
          [((train_DISCRIMINATOR cfg nets updDisc st X y writer).loss, st.step)]
        else []) ∧
      (train_VAE nets updE updD st X writer).state.step = st.step ∧
      (train_GENERATOR nets lossG updEg st X y writer).state.step = st.step ∧
      (train_DISCRIMINATOR cfg nets updDisc st X y writer).state.step =
        st.step ∧
      (train_VAE nets updE updD { st with step := k } X writer).loss =
        (train_VAE nets updE updD st X writer).loss ∧
      (train_GENERATOR nets lossG updEg { st with step := k } X y writer).loss =
        (train_GENERATOR nets lossG updEg st X y writer).loss ∧
      (train_DISCRIMINATOR cfg nets updDisc { st with step := k } X y
          writer).loss =
        (train_DISCRIMINATOR cfg nets updDisc st X y writer).loss :=
  ⟨rfl, rfl, rfl, rfl, rfl, rfl, rfl, rfl, rfl⟩

end AAE
